import Mathlib

/-!
Verification of the simbiota-database binary container format.

This file gives a shallow embedding of the Rust sources (`header.rs`,
`object_map.rs`, `object.rs`, `raw_database_file.rs`, `database.rs`) into
Lean 4 and proves properties of the embedded code.

Modelling conventions:
- Byte buffers are `List Nat` (each element a byte value; the encoders only
  ever produce values < 256, written via `toBytesBE` which masks).
- Machine integers are `Nat`; where the Rust code narrows (`as u32`,
  `to_be_bytes`) the model masks with `% 2 ^ w` via `toBytesBE`.
- Fallible Rust functions returning `Result` are embedded with `Except` when
  they cannot panic, and with `DResult` (which has an extra `panic`
  constructor) when some input drives the Rust code into a panic
  (integer-underflow panic, `chunks_exact(0)` panic, `assert!`/`panic!`
  calls, `unwrap` of an error).
- `HashMap` is modelled as an association list whose insert replaces the
  previous binding of the key; `get` is `List.lookup`.
- File I/O in the lazy facade is modelled by passing the file's bytes and
  translating positioned reads into slicing.
-/

/-- Result of running embedded Rust code: it can panic, return a typed
error, or succeed. -/
inductive DResult (ε : Type) (α : Type) where
  | panic : DResult ε α
  | err (e : ε) : DResult ε α
  | ok (a : α) : DResult ε α
deriving DecidableEq, Repr

namespace DResult

def isOk {ε α : Type} : DResult ε α → Bool
  | .ok _ => true
  | _ => false

def toOption {ε α : Type} : DResult ε α → Option α
  | .ok a => some a
  | _ => none

end DResult

/-- Big-endian byte encoding of `v` on `w` bytes (models
`uN::to_be_bytes`; masks the value like the machine integer does). -/
def toBytesBE : Nat → Nat → List Nat
  | 0, _ => []
  | w + 1, v => toBytesBE w (v / 256) ++ [v % 256]

/-- Big-endian byte decoding (models `uN::from_be_bytes`). -/
def fromBytesBE (l : List Nat) : Nat :=
  l.foldl (fun acc b => acc * 256 + b) 0

/-- Models `num_integer::Integer::next_multiple_of` for unsigned values,
as re-exported by `lib.rs`. -/
def nextMultipleOf (lhs rhs : Nat) : Nat :=
  (lhs + rhs - 1) / rhs * rhs

theorem toBytesBE_length (w v : Nat) : (toBytesBE w v).length = w := by
  induction w generalizing v with
  | zero => rfl
  | succ w ih => simp [toBytesBE, ih]

theorem fromBytesBE_toBytesBE (w v : Nat) :
    fromBytesBE (toBytesBE w v) = v % 256 ^ w := by
  induction w generalizing v with
  | zero => simp [toBytesBE, fromBytesBE, Nat.mod_one]
  | succ w ih =>
    simp only [toBytesBE, fromBytesBE, List.foldl_append]
    have h1 := ih (v / 256)
    simp only [fromBytesBE] at h1
    simp only [List.foldl, h1]
    rw [show (256 : Nat) ^ (w + 1) = 256 * 256 ^ w by ring, Nat.mod_mul]
    ring

theorem nextMultipleOf_dvd (l : Nat) : 16 ∣ nextMultipleOf l 16 :=
  Dvd.intro_left _ rfl

theorem nextMultipleOf_mod (l : Nat) : nextMultipleOf l 16 % 16 = 0 :=
  Nat.mul_mod_left _ 16

theorem nextMultipleOf_le (l : Nat) : l ≤ nextMultipleOf l 16 := by
  unfold nextMultipleOf
  have h := Nat.div_add_mod (l + 16 - 1) 16
  have h2 : (l + 16 - 1) % 16 < 16 := Nat.mod_lt _ (by norm_num)
  omega

theorem nextMultipleOf_lt (l : Nat) : nextMultipleOf l 16 < l + 16 := by
  unfold nextMultipleOf
  have h := Nat.div_add_mod (l + 16 - 1) 16
  omega

/-! ## Header codec (`header.rs`) -/

/-- Error taxonomy of `HeaderDecodeError`. -/
inductive HeaderDecodeError where
  | invalidMagic
  | tooShort
  | unsupportedVersion
  | invalidPadding
deriving DecidableEq, Repr

/-- The `HEADER_MAGIC` constant: ASCII `CSGM`. -/
def HEADER_MAGIC : List Nat := [0x43, 0x53, 0x47, 0x4d]

/-- The `Header` struct. -/
structure Header where
  version : Nat
  number_of_objects : Nat
  header_len : Nat
  extra_data : List Nat
deriving DecidableEq, Repr

namespace Header

/-- Models `Header::partial_version`: checks the magic and returns the
version field. -/
def versionOnly (data : List Nat) : Except HeaderDecodeError Nat :=
  if data.length < 4 + 4 then .error .tooShort
  else if data.take 4 ≠ HEADER_MAGIC then .error .invalidMagic
  else .ok (fromBytesBE ((data.drop 4).take 4))

/-- Models `Header::new`. -/
def new (number_of_objects : Nat) (extra_data : List Nat) : Header :=
  ⟨1, number_of_objects, 0, extra_data⟩

/-- Models `impl TryFrom<&[u8]> for Header`.  The `.panic` branch models
the unsigned underflow of `header_length - (4 + 4 + 8 + 4)` when
`header_length < 20` (a panic in debug builds; in release builds the
wrapped value drives the following copy loop out of bounds, which also
panics). -/
def tryFrom (value : List Nat) : DResult HeaderDecodeError Header :=
  if value.length < 4 + 4 + 8 + 4 then .err .tooShort
  else
    match versionOnly value with
    | .error e => .err e
    | .ok version =>
      if version ≠ 1 then .err .unsupportedVersion
      else
        let number_of_objects := fromBytesBE ((value.drop 8).take 8)
        let header_length := fromBytesBE ((value.drop 16).take 4)
        if value.length < header_length then .err .tooShort
        else if header_length % 16 ≠ 0 then .err .invalidPadding
        else if header_length < 4 + 4 + 8 + 4 then .panic
        else .ok ⟨version, number_of_objects, header_length,
          (value.drop 20).take (header_length - 20)⟩

end Header

/-- Models `impl From<Header> for Vec<u8>`: magic, version, object count,
computed full length, extra data, zero padding to the full length. -/
def headerToBytes (value : Header) : List Nat :=
  let length_before_padding := 4 + 4 + 8 + 4 + value.extra_data.length
  let full_length := nextMultipleOf length_before_padding 16
  let padding_length := full_length - length_before_padding
  HEADER_MAGIC ++ toBytesBE 4 value.version ++ toBytesBE 8 value.number_of_objects
    ++ toBytesBE 4 full_length ++ value.extra_data ++ List.replicate padding_length 0

/-! ## Object-map codec (`object_map.rs`) -/

/-- Error taxonomy of `ObjectMappingError`. -/
inductive ObjectMappingError where
  | invalidLength
  | invalidPadding
deriving DecidableEq, Repr

/-- The `ObjectMapping` struct: one 16-byte map record. -/
structure ObjectMapping where
  id : Nat
  offset : Nat
deriving DecidableEq, Repr

/-- Models `impl TryFrom<&[u8]> for ObjectMapping`. -/
def ObjectMapping.tryFrom (value : List Nat) :
    Except ObjectMappingError ObjectMapping :=
  if value.length ≠ 16 then .error .invalidLength
  else
    let id := fromBytesBE (value.take 8)
    let offset := fromBytesBE ((value.drop 8).take 8)
    if offset % 16 ≠ 0 then .error .invalidPadding
    else .ok ⟨id, offset⟩

/-- The `ObjectMap` struct. -/
structure ObjectMap where
  mappings : List ObjectMapping
deriving DecidableEq, Repr

/-- The record-reading loop of `ObjectMap::try_from`: reads `count`
consecutive 16-byte records starting at record index `index`. -/
def decodeMappingsAux (value : List Nat) :
    Nat → Nat → Except ObjectMappingError (List ObjectMapping)
  | 0, _ => .ok []
  | count + 1, index =>
    match ObjectMapping.tryFrom ((value.drop (index * 16)).take 16) with
    | .error e => .error e
    | .ok m =>
      match decodeMappingsAux value count (index + 1) with
      | .error e => .error e
      | .ok ms => .ok (m :: ms)

namespace ObjectMap

/-- Models `ObjectMap::new`. -/
def new : ObjectMap := ⟨[]⟩

/-- Models `ObjectMap::try_from(value, entry_count)`: rejects the empty
buffer, rejects a buffer shorter than `entry_count * 16`, then decodes the
records in order. -/
def tryFrom (value : List Nat) (entry_count : Nat) :
    Except ObjectMappingError ObjectMap :=
  if value.length = 0 then .error .invalidLength
  else if value.length < entry_count * 16 then .error .invalidLength
  else
    match decodeMappingsAux value entry_count 0 with
    | .error e => .error e
    | .ok entries => .ok ⟨entries⟩

end ObjectMap

/-- Models `impl From<ObjectMap> for Vec<u8>`. -/
def objectMapToBytes (value : ObjectMap) : List Nat :=
  (value.mappings.map (fun m => toBytesBE 8 m.id ++ toBytesBE 8 m.offset)).flatten

/-! ## Raw-object codec (`object.rs`) -/

/-- Error taxonomy of `ObjectDecodeError` (the `CompressionError` payload,
an `std::io::Error`, is not modelled). -/
inductive ObjectDecodeError where
  | tooShort
  | invalidPadding
  | unsupportedCompression (code : Nat)
  | compressionError
deriving DecidableEq, Repr

/-- The `RawObject` struct. -/
structure RawObject where
  format : Nat
  compression : Nat
  entry_type : Nat
  entry_size : Nat
  length : Nat
  data : List (List Nat)
deriving DecidableEq, Repr

/-- Fuel-driven model of `slice::chunks_exact` for a positive chunk size:
yields the consecutive full chunks and drops a trailing partial chunk.
(The Rust method panics for chunk size 0; the decoder models that panic
explicitly before calling this function.) -/
def chunksExactAux : Nat → Nat → List Nat → List (List Nat)
  | 0, _, _ => []
  | fuel + 1, size, l =>
    if size ≤ l.length then l.take size :: chunksExactAux fuel size (l.drop size)
    else []

def chunksExact (size : Nat) (l : List Nat) : List (List Nat) :=
  chunksExactAux l.length size l

namespace RawObject

/-- Models `RawObject::new`. -/
def new (format compression entry_type entry_size : Nat) : RawObject :=
  ⟨format, compression, entry_type, entry_size, 0, []⟩

/-- Models `RawObject::decode_data`.  The `inflate` argument stands for the
zlib decompressor of the optional `compression` cargo feature: `none`
models a build without the feature (code 1 is then unsupported), and
`some f` models a build with it, `f` returning `none` on a decompressor
I/O error. -/
def decodeData (inflate : Option (List Nat → Option (List Nat)))
    (compression : Nat) (input_data : List Nat) :
    Except ObjectDecodeError (List Nat) :=
  if compression = 0 then .ok input_data
  else if compression = 1 then
    match inflate with
    | none => .error (.unsupportedCompression 1)
    | some f =>
      match f input_data with
      | none => .error .compressionError
      | some decoded => .ok decoded
  else .error (.unsupportedCompression compression)

/-- Models `impl TryFrom<&[u8]> for RawObject`, generic over the optional
decompressor.  The `.panic` branch models the `chunks_exact(0)` panic when
the `entry_size` field is zero. -/
def tryFromGen (inflate : Option (List Nat → Option (List Nat)))
    (value : List Nat) : DResult ObjectDecodeError RawObject :=
  if value.length < 2 + 2 + 2 + 2 + 8 then .err .tooShort
  else
    let format := fromBytesBE (value.take 2)
    let compression := fromBytesBE ((value.drop 2).take 2)
    let entry_type := fromBytesBE ((value.drop 4).take 2)
    let entry_size := fromBytesBE ((value.drop 6).take 2)
    let length := fromBytesBE ((value.drop 8).take 8)
    if value.length < length then .err .tooShort
    else if length ≤ 16 then .err .tooShort
    else
      match decodeData inflate compression ((value.drop 16).take (length - 16)) with
      | .error e => .err e
      | .ok decoded_data =>
        if entry_size = 0 then .panic
        else .ok ⟨format, compression, entry_type, entry_size, length,
          chunksExact entry_size decoded_data⟩

/-- The decoder as instantiated in this crate's default build (no
`compression` feature). -/
def tryFrom (value : List Nat) : DResult ObjectDecodeError RawObject :=
  tryFromGen none value

end RawObject

/-- Models `impl From<RawObject> for Vec<u8>`.  Returns `none` where the
Rust encoder panics: on the `assert_eq!(value.compression, 0)` and on the
per-entry `assert_eq!(entry.len(), value.entry_size as usize)`. -/
def rawObjectToBytes (value : RawObject) : Option (List Nat) :=
  let entry_count := value.data.length
  let raw_length := 16 + entry_count * value.entry_size
  let full_length := nextMultipleOf raw_length 16
  let padding_len := full_length - raw_length
  if value.compression ≠ 0 then none
  else if value.data.all (fun e => e.length = value.entry_size) then
    some (toBytesBE 2 value.format ++ toBytesBE 2 value.compression
      ++ toBytesBE 2 value.entry_type ++ toBytesBE 2 value.entry_size
      ++ toBytesBE 8 raw_length ++ value.data.flatten
      ++ List.replicate padding_len 0)
  else none

/-! ## Raw database assembler (`raw_database_file.rs`) -/

/-- Error taxonomy of `DatabaseParseError` (the `std::io::Error` payloads
of `FileOpenFailed` and `IOError` are not modelled). -/
inductive DatabaseParseError where
  | invalidHeader (e : HeaderDecodeError)
  | invalidObjectMap (e : ObjectMappingError)
  | invalidObject (e : ObjectDecodeError)
  | invalidObjectOffset (m : ObjectMapping)
  | unsupportedVersion (v : Nat)
  | headerParsingError (reason : String)
  | fileOpenFailed
  | ioError
deriving DecidableEq, Repr

/-- Models `HashMap::insert`: the new binding replaces any previous binding
of the same key (lookups are by `List.lookup`). -/
def hmInsert {α : Type} (m : List (Nat × α)) (k : Nat) (v : α) : List (Nat × α) :=
  (k, v) :: m.filter (fun p => p.1 != k)

/-- The `RawDatabaseFile` struct (its `objects: HashMap<u64, RawObject>`
modelled as an association list). -/
structure RawDatabaseFile where
  header : Header
  object_map : ObjectMap
  objects : List (Nat × RawObject)
deriving DecidableEq, Repr

namespace RawDatabaseFile

/-- Models `RawDatabaseFile::parse_v1_headers`. -/
def parseV1Headers (value : List Nat) :
    DResult DatabaseParseError (Header × ObjectMap) :=
  match Header.tryFrom value with
  | .panic => .panic
  | .err e => .err (.invalidHeader e)
  | .ok header =>
    let remaining_bytes := value.drop header.header_len
    match ObjectMap.tryFrom remaining_bytes header.number_of_objects with
    | .error e => .err (.invalidObjectMap e)
    | .ok object_map => .ok (header, object_map)

/-- The mapping loop of `RawDatabaseFile::parse_v1_objects`. -/
def parseV1Objects (data : List Nat) :
    List ObjectMapping → List (Nat × RawObject) →
    DResult DatabaseParseError (List (Nat × RawObject))
  | [], objects => .ok objects
  | mapping :: rest, objects =>
    if data.length ≤ mapping.offset then .err (.invalidObjectOffset mapping)
    else
      match RawObject.tryFrom (data.drop mapping.offset) with
      | .panic => .panic
      | .err e => .err (.invalidObject e)
      | .ok object => parseV1Objects data rest (hmInsert objects mapping.id object)

/-- Models `RawDatabaseFile::parse_v1`. -/
def parseV1 (value : List Nat) : DResult DatabaseParseError RawDatabaseFile :=
  match parseV1Headers value with
  | .panic => .panic
  | .err e => .err e
  | .ok (header, object_map) =>
    match parseV1Objects value object_map.mappings [] with
    | .panic => .panic
    | .err e => .err e
    | .ok objects => .ok ⟨header, object_map, objects⟩

/-- Models `impl TryFrom<&[u8]> for RawDatabaseFile`: version dispatch. -/
def tryFrom (value : List Nat) : DResult DatabaseParseError RawDatabaseFile :=
  match Header.versionOnly value with
  | .error e => .err (.invalidHeader e)
  | .ok version =>
    if version = 1 then parseV1 value
    else .err (.unsupportedVersion version)

end RawDatabaseFile

/-! ## High-level facades (`database.rs`) -/

/-- The `ObjectCompressionType` enum. -/
inductive ObjectCompressionType where
  | noCompression
  | deflate
deriving DecidableEq, Repr

namespace ObjectCompressionType

/-- Models `ObjectCompressionType::get_value`. -/
def getValue : ObjectCompressionType → Nat
  | .noCompression => 0
  | .deflate => 1

/-- Models `ObjectCompressionType::from_value`; `none` stands for the
`panic!("invalid compression type")` arm. -/
def fromValue (value : Nat) : Option ObjectCompressionType :=
  if value = 0 then some .noCompression
  else if value = 1 then some .deflate
  else none

end ObjectCompressionType

/-- The generic `Object` struct of the facades. -/
structure Object where
  format : Nat
  compression_type : ObjectCompressionType
  entry_type : Nat
  entry_size : Nat
  data : List (List Nat)
deriving DecidableEq, Repr

/-- Models `impl From<&RawObject> for Object` (and the consuming variant,
which produces the same value); `none` stands for the panic inside
`ObjectCompressionType::from_value`. -/
def Object.fromRaw (value : RawObject) : Option Object :=
  match ObjectCompressionType.fromValue value.compression with
  | none => none
  | some ct => some ⟨value.format, ct, value.entry_type, value.entry_size, value.data⟩

/-- The eager `Database` struct (its `objects: HashMap<u64, Object>`
modelled as an association list, inserts via `hmInsert`). -/
structure Database where
  objects : List (Nat × Object)
  last_updated : Nat
  database_version : Nat
deriving DecidableEq, Repr

/-- The per-object conversion loop of `Database::from_bytes`; `none`
stands for a panic inside `Object::from`. -/
def objectsFromRaw : List (Nat × RawObject) → Option (List (Nat × Object))
  | [] => some []
  | (id, r) :: rest =>
    match Object.fromRaw r, objectsFromRaw rest with
    | some o, some os => some ((id, o) :: os)
    | _, _ => none

namespace Database

/-- Models `Database::new`. -/
def new (database_version : Nat) : Database := ⟨[], 0, database_version⟩

/-- Models `Database::add_object`: plain `HashMap::insert`, replacing any
existing object under the id. -/
def addObject (db : Database) (id : Nat) (obj : Object) : Database :=
  ⟨hmInsert db.objects id obj, db.last_updated, db.database_version⟩

/-- Models `Database::get_object`. -/
def getObject (db : Database) (id : Nat) : Option Object :=
  db.objects.lookup id

/-- Models `Database::from_bytes`. -/
def fromBytes (data : List Nat) : DResult DatabaseParseError Database :=
  match RawDatabaseFile.tryFrom data with
  | .panic => .panic
  | .err e => .err e
  | .ok raw_database =>
    let extra_data := raw_database.header.extra_data
    if extra_data.length < 16 then .err (.headerParsingError "missing v1 extra data")
    else
      let timestamp := fromBytesBE (extra_data.take 8)
      let version := fromBytesBE ((extra_data.drop 8).take 8)
      match objectsFromRaw raw_database.objects with
      | none => .panic
      | some objects => .ok ⟨objects, timestamp, version⟩

/-- The object-serialization loop of `Database::as_bytes`: walks the
objects, records each one's pre-patch offset (the length of the object
area built so far) and appends its encoding.  The first `.panic` branch is
the `panic!("someone f-d up the padding")` guard, which the Rust code
triggers whenever `pre_offset & 16 != 0` (a bitwise AND with 16, i.e. a
test of bit 4 — not a 16-alignment test); the second stands for the
asserts inside the raw-object encoder. -/
def serializeObjects :
    List (Nat × Object) → List Nat →
    DResult DatabaseParseError (List ObjectMapping × List Nat)
  | [], object_data => .ok ([], object_data)
  | (id, object) :: rest, object_data =>
    let pre_offset := object_data.length
    if Nat.land pre_offset 16 ≠ 0 then .panic
    else
      match rawObjectToBytes ⟨object.format, object.compression_type.getValue,
        object.entry_type, object.entry_size, 0, object.data⟩ with
      | none => .panic
      | some out_vec =>
        match serializeObjects rest (object_data ++ out_vec) with
        | .panic => .panic
        | .err e => .err e
        | .ok (mappings, final_data) => .ok (⟨id, pre_offset⟩ :: mappings, final_data)

/-- Models `Database::as_bytes`.  The wall-clock timestamp that the Rust
code samples from the system is passed in as the `timestamp` argument. -/
def asBytes (db : Database) (timestamp : Nat) : DResult DatabaseParseError (List Nat) :=
  let extra_data := toBytesBE 8 timestamp ++ toBytesBE 8 db.database_version
  let header_bytes := headerToBytes (Header.new db.objects.length extra_data)
  let header_len := header_bytes.length
  match serializeObjects db.objects [] with
  | .panic => .panic
  | .err e => .err e
  | .ok (mappings, object_data) =>
    let offset := header_len + 16 * mappings.length
    let patched := mappings.map (fun m => ObjectMapping.mk m.id (m.offset + offset))
    .ok (header_bytes ++ objectMapToBytes ⟨patched⟩ ++ object_data)

end Database

/-! ## Lazy facade (`database.rs`, `LazyLoadedDatabase`) -/

/-- Models `read_exact_offset` (`read_exact_at`): fills a buffer of
`buf_len` bytes from absolute offset `offset`, failing if the file is too
short; a zero-length buffer is filled trivially. -/
def readExactOffset (file : List Nat) (buf_len offset : Nat) : Option (List Nat) :=
  if buf_len = 0 then some []
  else if offset + buf_len ≤ file.length then some ((file.drop offset).take buf_len)
  else none

/-- The `LazyLoadedDatabase` struct: the open file (modelled by its
bytes), the parsed header, and the parsed object map. -/
structure LazyLoadedDatabase where
  file : List Nat
  header : Header
  mapping : ObjectMap
deriving DecidableEq, Repr

/-- Models `LazyLoadedDatabase::new` over the opened file's bytes
(file-open errors are outside the model).  Faithful to the source: the
header and map buffers are created with `Vec::with_capacity(..)`, so their
*length* is 0 and the positioned reads into `as_mut_slice()` fill zero
bytes; the modelled reads therefore read 0 bytes, like the Rust code. -/
def LazyLoadedDatabase.new (file : List Nat) :
    DResult DatabaseParseError LazyLoadedDatabase :=
  match readExactOffset file 32 0 with
  | none => .err .ioError
  | some minimal_header_buf =>
    let _length := fromBytesBE ((minimal_header_buf.drop 16).take 4)
    -- header_data = Vec::with_capacity(length): its as_mut_slice() is empty
    match readExactOffset file 0 0 with
    | none => .err .ioError
    | some header_data =>
      match Header.tryFrom header_data with
      | .panic => .panic
      | .err e => .err (.invalidHeader e)
      | .ok header =>
        let _mapping_size := 16 * header.number_of_objects
        -- mapping_data = Vec::with_capacity(mapping_size): also empty
        match readExactOffset file 0 header.header_len with
        | none => .err .ioError
        | some mapping_data =>
          match ObjectMap.tryFrom mapping_data header.number_of_objects with
          | .error e => .err (.invalidObjectMap e)
          | .ok mapping => .ok ⟨file, header, mapping⟩

/-! ## Helper lemmas on byte buffers -/

theorem drop_append_len {a b : List Nat} {n : Nat} (h : a.length = n) :
    (a ++ b).drop n = b := by
  subst h; exact List.drop_left a b

theorem take_append_len {a b : List Nat} {n : Nat} (h : a.length = n) :
    (a ++ b).take n = a := by
  subst h; exact List.take_left a b

theorem flatten_length_all {l : List (List Nat)} {s : Nat}
    (h : ∀ e ∈ l, e.length = s) : l.flatten.length = l.length * s := by
  induction l with
  | nil => simp
  | cons e t ih =>
    simp only [List.flatten_cons, List.length_append, List.length_cons,
      h e (List.mem_cons_self e t), ih (fun x hx => h x (List.mem_cons_of_mem e hx))]
    ring

/-! ## Claim theorems -/

/-- C9: for every input buffer of at least 20 bytes with valid magic,
version 1, and a `header_len` field that is a multiple of 16 but less than
20, header decode does not return a typed error: the unsigned subtraction
`header_len - 20` underflows and the function panics instead of returning
`TooShort` or `InvalidPadding`. -/
theorem c9_header_len_underflow_panics (value : List Nat)
    (h20 : 20 ≤ value.length)
    (hmagic : value.take 4 = HEADER_MAGIC)
    (hver : fromBytesBE ((value.drop 4).take 4) = 1)
    (hpad : fromBytesBE ((value.drop 16).take 4) % 16 = 0)
    (hlt : fromBytesBE ((value.drop 16).take 4) < 20) :
    Header.tryFrom value = .panic := by
  have hv : Header.versionOnly value = .ok 1 := by
    unfold Header.versionOnly
    rw [if_neg (by omega), if_neg (by simp [hmagic]), hver]
  unfold Header.tryFrom
  rw [if_neg (by omega), hv]
  simp only
  rw [if_neg (by simp), if_neg (by omega), if_neg (by omega), if_pos (by omega)]

/-- Witness for C9: a concrete 32-byte buffer with valid magic, version 1
and `header_len = 16` drives the header decoder into the panic. -/
theorem c9_witness :
    Header.tryFrom (HEADER_MAGIC ++ toBytesBE 4 1 ++ toBytesBE 8 0
      ++ toBytesBE 4 16 ++ List.replicate 12 0) = .panic :=
  c9_header_len_underflow_panics _ (by decide) (by decide) (by decide)
    (by decide) (by decide)

/-- C10: for every input buffer that passes the raw-object length checks
(at least 16 bytes, `length` field greater than 16 and at most the buffer
length, compression code 0) but whose `entry_size` field is 0, raw-object
decode panics (`chunks_exact(0)`) instead of returning an error. -/
theorem c10_zero_entry_size_panics (inflate : Option (List Nat → Option (List Nat)))
    (value : List Nat)
    (h16 : 16 ≤ value.length)
    (hcomp : fromBytesBE ((value.drop 2).take 2) = 0)
    (hes : fromBytesBE ((value.drop 6).take 2) = 0)
    (hlen : 16 < fromBytesBE ((value.drop 8).take 8))
    (hbound : fromBytesBE ((value.drop 8).take 8) ≤ value.length) :
    RawObject.tryFromGen inflate value = .panic := by
  unfold RawObject.tryFromGen
  rw [if_neg (by omega)]
  simp only
  rw [if_neg (by omega), if_neg (by omega)]
  have hd : RawObject.decodeData inflate (fromBytesBE ((value.drop 2).take 2))
      ((value.drop 16).take (fromBytesBE ((value.drop 8).take 8) - 16)) =
      .ok ((value.drop 16).take (fromBytesBE ((value.drop 8).take 8) - 16)) := by
    unfold RawObject.decodeData
    rw [if_pos hcomp]
  rw [hd]
  simp only
  rw [if_pos hes]

/-- Witness for C10: a concrete 17-byte buffer with `entry_size = 0`,
compression 0 and `length = 17` panics in the decoder. -/
theorem c10_witness :
    RawObject.tryFromGen none (toBytesBE 2 1 ++ toBytesBE 2 0 ++ toBytesBE 2 1
      ++ toBytesBE 2 0 ++ toBytesBE 8 17 ++ [9]) = .panic :=
  c10_zero_entry_size_panics none _ (by decide) (by decide) (by decide)
    (by decide) (by decide)

theorem decodeData_ne_invalidPadding
    (inflate : Option (List Nat → Option (List Nat))) (c : Nat) (input : List Nat) :
    RawObject.decodeData inflate c input ≠ .error .invalidPadding := by
  unfold RawObject.decodeData
  split_ifs
  · simp
  · cases inflate with
    | none => simp
    | some f => cases hfi : f input <;> simp [hfi]
  · simp

/-- C6: for every input byte sequence (and either compression-feature
build), raw-object decode never returns the `InvalidPadding` error
variant: every returned failure is `TooShort`, `UnsupportedCompression` or
`CompressionError`. -/
theorem c6_no_invalid_padding (inflate : Option (List Nat → Option (List Nat)))
    (value : List Nat) :
    RawObject.tryFromGen inflate value ≠ .err .invalidPadding := by
  unfold RawObject.tryFromGen
  split
  · simp
  · dsimp only
    split
    · simp
    · split
      · simp
      · cases hd : RawObject.decodeData inflate (fromBytesBE ((value.drop 2).take 2))
            ((value.drop 16).take (fromBytesBE ((value.drop 8).take 8) - 16)) with
        | error e =>
          have h := decodeData_ne_invalidPadding inflate
            (fromBytesBE ((value.drop 2).take 2))
            ((value.drop 16).take (fromBytesBE ((value.drop 8).take 8) - 16))
          rw [hd] at h
          simp only [hd, ne_eq, DResult.err.injEq]
          simpa using h
        | ok d =>
          simp only [hd]
          split <;> simp

/-- Witness for C6 at a concrete input. -/
theorem c6_witness : RawObject.tryFromGen none [0, 1] ≠ .err .invalidPadding :=
  c6_no_invalid_padding none [0, 1]

/-- Concrete valid version-1 database file: a 48-byte header (1 object,
16 bytes of extra data, 12 bytes of padding), a 16-byte object map (id 1
at offset 64) and one 32-byte raw object (entry_size 16, one entry). -/
def exampleDbBytes : List Nat :=
  HEADER_MAGIC ++ toBytesBE 4 1 ++ toBytesBE 8 1 ++ toBytesBE 4 48 ++ List.replicate 28 0
    ++ toBytesBE 8 1 ++ toBytesBE 8 64
    ++ toBytesBE 2 1 ++ toBytesBE 2 0 ++ toBytesBE 2 1 ++ toBytesBE 2 16
    ++ toBytesBE 8 32 ++ List.replicate 16 7

/-- C1 (refuted by the code): `LazyLoadedDatabase::new` never succeeds.
The header buffer is created with `Vec::with_capacity`, so its length is 0
and the positioned read fills no bytes; `Header::try_from` then always
sees an empty slice and fails with `TooShort`, which `new` wraps in
`InvalidHeader` — for every file of at least 32 bytes (shorter files fail
the initial 32-byte read with `IOError` instead).  On the very same bytes
the eager facade's `Database::from_bytes` succeeds. -/
theorem c1_lazy_construction_never_succeeds :
    (∀ file : List Nat, 32 ≤ file.length →
      LazyLoadedDatabase.new file = .err (.invalidHeader .tooShort)) ∧
    32 ≤ exampleDbBytes.length ∧
    (Database.fromBytes exampleDbBytes).isOk = true := by
  refine ⟨?_, by decide, by decide⟩
  intro file h32
  unfold LazyLoadedDatabase.new
  have h1 : readExactOffset file 32 0 = some ((file.drop 0).take 32) := by
    unfold readExactOffset
    rw [if_neg (by omega), if_pos (by omega)]
  rw [h1]
  rfl

/-- Witness instantiating the universally quantified part of C1's theorem
at the concrete example database. -/
theorem c1_witness :
    LazyLoadedDatabase.new exampleDbBytes = .err (.invalidHeader .tooShort) :=
  c1_lazy_construction_never_succeeds.1 exampleDbBytes (by decide)

/-- Eager database exhibiting the serializer panic of C2: two objects with
distinct ids, compression none, every entry exactly `entry_size` bytes, at
least one entry each.  The first object's encoded footprint is 48 bytes,
so the second object's running offset is 48 — 16-aligned, but with bit 4
set. -/
def panicDb : Database :=
  ⟨[(1, ⟨1, .noCompression, 1, 32, [List.replicate 32 3]⟩),
    (2, ⟨1, .noCompression, 1, 16, [List.replicate 16 4]⟩)], 0, 1⟩

/-- C2 (refuted by the code): `Database::as_bytes` panics on `panicDb`
even though it satisfies every hypothesis of the round-trip claim, because
the alignment guard tests `pre_offset & 16 != 0` (bit 4) instead of
`pre_offset % 16 != 0`. -/
theorem c2_as_bytes_panics :
    (List.map Prod.fst panicDb.objects).Nodup ∧
    (∀ p ∈ panicDb.objects, p.2.compression_type = .noCompression ∧
      0 < p.2.entry_size ∧ 0 < p.2.data.length ∧
      ∀ e ∈ p.2.data, e.length = p.2.entry_size) ∧
    Database.asBytes panicDb 0 = .panic := by
  exact ⟨by decide, by decide, by decide⟩

theorem objectMapping_tryFrom_at (value : List Nat) (i : Nat)
    (hlen : i * 16 + 16 ≤ value.length) :
    ObjectMapping.tryFrom ((value.drop (i * 16)).take 16) =
      if fromBytesBE ((value.drop (i * 16 + 8)).take 8) % 16 ≠ 0 then
        .error .invalidPadding
      else .ok ⟨fromBytesBE ((value.drop (i * 16)).take 8),
        fromBytesBE ((value.drop (i * 16 + 8)).take 8)⟩ := by
  have hsl : ((value.drop (i * 16)).take 16).length = 16 := by
    simp only [List.length_take, List.length_drop]
    omega
  have htk : ((value.drop (i * 16)).take 16).take 8 = (value.drop (i * 16)).take 8 := by
    rw [List.take_take]
    norm_num
  have hdr : (((value.drop (i * 16)).take 16).drop 8).take 8 =
      (value.drop (i * 16 + 8)).take 8 := by
    rw [List.drop_take, List.drop_drop, List.take_take]
    norm_num
  unfold ObjectMapping.tryFrom
  rw [if_neg (by omega)]
  simp only [htk, hdr]

theorem decodeMappingsAux_ok (value : List Nat) :
    ∀ (count index : Nat),
    (index + count) * 16 ≤ value.length →
    (∀ j, j < count →
      fromBytesBE ((value.drop ((index + j) * 16 + 8)).take 8) % 16 = 0) →
    ∃ ms, decodeMappingsAux value count index = .ok ms ∧ ms.length = count ∧
      ∀ j (h : j < ms.length),
        ms.get ⟨j, h⟩ = ⟨fromBytesBE ((value.drop ((index + j) * 16)).take 8),
          fromBytesBE ((value.drop ((index + j) * 16 + 8)).take 8)⟩ := by
  intro count
  induction count with
  | zero =>
    intro index _ _
    exact ⟨[], rfl, rfl, fun j h => absurd h (by simp)⟩
  | succ c ih =>
    intro index hlen halign
    have hrec := objectMapping_tryFrom_at value index (by omega)
    rw [if_neg (by
      have := halign 0 (by omega)
      simpa using this)] at hrec
    obtain ⟨ms, hms, hmslen, hmsget⟩ := ih (index + 1) (by omega) (by
      intro j hj
      have := halign (j + 1) (by omega)
      have harith : index + 1 + j = index + (j + 1) := by omega
      rw [harith]
      exact this)
    refine ⟨⟨fromBytesBE ((value.drop (index * 16)).take 8),
      fromBytesBE ((value.drop (index * 16 + 8)).take 8)⟩ :: ms, ?_, by simp [hmslen], ?_⟩
    · unfold decodeMappingsAux
      rw [hrec, hms]
    · intro j h
      cases j with
      | zero => simp
      | succ j =>
        have hj : j < ms.length := by simpa using h
        have := hmsget j hj
        have harith : index + 1 + j = index + (j + 1) := by omega
        rw [harith] at this
        simpa using this

theorem decodeMappingsAux_ne_invalidLength (value : List Nat) :
    ∀ (count index : Nat), (index + count) * 16 ≤ value.length →
    decodeMappingsAux value count index ≠ .error .invalidLength := by
  intro count
  induction count with
  | zero => intro index _; simp [decodeMappingsAux]
  | succ c ih =>
    intro index hlen
    unfold decodeMappingsAux
    rw [objectMapping_tryFrom_at value index (by omega)]
    split_ifs
    · simp
    · cases hrec : decodeMappingsAux value c (index + 1) with
      | error e =>
        have hne := ih (index + 1) (by omega)
        rw [hrec] at hne
        simp only
        intro hc
        apply hne
        cases e <;> simp_all
      | ok ms => simp

/-- C5 (amended): object-map decode fails with `InvalidLength` exactly
when the buffer is shorter than `count * 16` *or empty*; on a nonempty
buffer of at least `count * 16` bytes whose first `count` records all
carry 16-aligned offsets, decoding succeeds with exactly `count` mappings
in record order.  (The bound `count * 16 < 2 ^ 64` reflects the `u64`
range of the Rust arithmetic.) -/
theorem c5_object_map_decode (value : List Nat) (count : Nat)
    (_hcount : count * 16 < 2 ^ 64) :
    (ObjectMap.tryFrom value count = .error .invalidLength ↔
      value.length = 0 ∨ value.length < count * 16) ∧
    (value.length ≠ 0 → count * 16 ≤ value.length →
      (∀ i, i < count → fromBytesBE ((value.drop (i * 16 + 8)).take 8) % 16 = 0) →
      ∃ m, ObjectMap.tryFrom value count = .ok m ∧ m.mappings.length = count ∧
        ∀ i (h : i < m.mappings.length),
          m.mappings.get ⟨i, h⟩ = ⟨fromBytesBE ((value.drop (i * 16)).take 8),
            fromBytesBE ((value.drop (i * 16 + 8)).take 8)⟩) := by
  constructor
  · constructor
    · intro h
      by_contra hc
      push_neg at hc
      obtain ⟨hne, hge⟩ := hc
      unfold ObjectMap.tryFrom at h
      rw [if_neg hne, if_neg (by omega)] at h
      have hnel := decodeMappingsAux_ne_invalidLength value count 0 (by omega)
      cases hrec : decodeMappingsAux value count 0 with
      | error e =>
        rw [hrec] at h hnel
        simp only at h
        apply hnel
        cases e <;> simp_all
      | ok ms => rw [hrec] at h; simp at h
    · intro h
      unfold ObjectMap.tryFrom
      rcases h with h | h
      · rw [if_pos h]
      · by_cases hz : value.length = 0
        · rw [if_pos hz]
        · rw [if_neg hz, if_pos h]
  · intro hne hge halign
    obtain ⟨ms, hms, hmslen, hmsget⟩ := decodeMappingsAux_ok value count 0 (by omega) (by
      intro j hj
      have := halign j hj
      simpa using this)
    refine ⟨⟨ms⟩, ?_, hmslen, ?_⟩
    · unfold ObjectMap.tryFrom
      rw [if_neg hne, if_neg (by omega), hms]
    · intro i h
      have := hmsget i h
      simpa using this

/-- C5 counterexample: with `count = 0` and the empty buffer the claim
demands success with an empty map (`len(bytes) ≥ count * 16` holds), but
the code returns `InvalidLength`. -/
theorem c5_counterexample :
    ObjectMap.tryFrom ([] : List Nat) 0 = .error .invalidLength ∧
    (0 : Nat) * 16 ≤ ([] : List Nat).length :=
  ⟨rfl, by decide⟩

/-- Witness for the amended C5 at a concrete 16-byte buffer holding one
record (id 9, offset 32). -/
theorem c5_witness :
    ∃ m, ObjectMap.tryFrom (toBytesBE 8 9 ++ toBytesBE 8 32) 1 = .ok m ∧
      m.mappings.length = 1 := by
  obtain ⟨m, hm, hlen, _⟩ :=
    (c5_object_map_decode (toBytesBE 8 9 ++ toBytesBE 8 32) 1 (by decide)).2
      (by decide) (by decide) (by decide)
  exact ⟨m, hm, hlen⟩

theorem nextMultipleOf_self {l : Nat} (h : l % 16 = 0) : nextMultipleOf l 16 = l := by
  obtain ⟨k, rfl⟩ := Nat.dvd_of_mod_eq_zero h
  unfold nextMultipleOf
  rw [show 16 * k + 16 - 1 = 16 * k + 15 by omega, Nat.mul_add_div (by norm_num)]
  have h15 : (15 : Nat) / 16 = 0 := by norm_num
  rw [h15]
  omega

theorem headerToBytes_eq (h : Header) :
    headerToBytes h = HEADER_MAGIC ++ (toBytesBE 4 h.version
      ++ (toBytesBE 8 h.number_of_objects
      ++ (toBytesBE 4 (nextMultipleOf (20 + h.extra_data.length) 16)
      ++ (h.extra_data ++ List.replicate (nextMultipleOf (20 + h.extra_data.length) 16
          - (20 + h.extra_data.length)) 0)))) := by
  unfold headerToBytes
  simp only [List.append_assoc]

/-- C3 (amended): header decode of an encode reproduces `version = 1`,
`number_of_objects` and the computed `header_len`, and reproduces
`extra_data` *extended by the encoder's zero padding* — byte-for-byte
equal to the original exactly when `20 + len(extra_data)` is already a
multiple of 16.  The bounds reflect the `u64`/`u32` ranges of the fields. -/
theorem c3_header_roundtrip_padded (n hl0 : Nat) (extra : List Nat)
    (hn : n < 2 ^ 64)
    (hfit : nextMultipleOf (20 + extra.length) 16 < 2 ^ 32) :
    (Header.tryFrom (headerToBytes ⟨1, n, hl0, extra⟩) =
      .ok ⟨1, n, nextMultipleOf (20 + extra.length) 16,
        extra ++ List.replicate
          (nextMultipleOf (20 + extra.length) 16 - (20 + extra.length)) 0⟩) ∧
    ((20 + extra.length) % 16 = 0 →
      extra ++ List.replicate
        (nextMultipleOf (20 + extra.length) 16 - (20 + extra.length)) 0 = extra) := by
  have hFL : 20 + extra.length ≤ nextMultipleOf (20 + extra.length) 16 :=
    nextMultipleOf_le _
  have hBeq := headerToBytes_eq ⟨1, n, hl0, extra⟩
  simp only at hBeq
  have hlenB : (headerToBytes ⟨1, n, hl0, extra⟩).length =
      nextMultipleOf (20 + extra.length) 16 := by
    rw [hBeq]
    simp only [List.length_append, toBytesBE_length, List.length_replicate]
    have hm : HEADER_MAGIC.length = 4 := rfl
    omega
  have hg8 : headerToBytes ⟨1, n, hl0, extra⟩ =
      (HEADER_MAGIC ++ toBytesBE 4 1) ++ (toBytesBE 8 n
        ++ (toBytesBE 4 (nextMultipleOf (20 + extra.length) 16)
        ++ (extra ++ List.replicate (nextMultipleOf (20 + extra.length) 16
            - (20 + extra.length)) 0))) := by
    rw [hBeq]; simp [List.append_assoc]
  have hg16 : headerToBytes ⟨1, n, hl0, extra⟩ =
      ((HEADER_MAGIC ++ toBytesBE 4 1) ++ toBytesBE 8 n)
        ++ (toBytesBE 4 (nextMultipleOf (20 + extra.length) 16)
        ++ (extra ++ List.replicate (nextMultipleOf (20 + extra.length) 16
            - (20 + extra.length)) 0)) := by
    rw [hBeq]; simp [List.append_assoc]
  have hg20 : headerToBytes ⟨1, n, hl0, extra⟩ =
      (((HEADER_MAGIC ++ toBytesBE 4 1) ++ toBytesBE 8 n)
        ++ toBytesBE 4 (nextMultipleOf (20 + extra.length) 16))
        ++ (extra ++ List.replicate (nextMultipleOf (20 + extra.length) 16
            - (20 + extra.length)) 0) := by
    rw [hBeq]; simp [List.append_assoc]
  have ht4 : (headerToBytes ⟨1, n, hl0, extra⟩).take 4 = HEADER_MAGIC := by
    rw [hBeq]; exact take_append_len rfl
  have hver : ((headerToBytes ⟨1, n, hl0, extra⟩).drop 4).take 4 = toBytesBE 4 1 := by
    rw [hBeq, drop_append_len (show HEADER_MAGIC.length = 4 from rfl)]
    exact take_append_len (toBytesBE_length 4 1)
  have hno : ((headerToBytes ⟨1, n, hl0, extra⟩).drop 8).take 8 = toBytesBE 8 n := by
    rw [hg8, drop_append_len (show (HEADER_MAGIC ++ toBytesBE 4 1).length = 8 by
      simp [HEADER_MAGIC, toBytesBE_length])]
    exact take_append_len (toBytesBE_length 8 n)
  have hhl : ((headerToBytes ⟨1, n, hl0, extra⟩).drop 16).take 4 =
      toBytesBE 4 (nextMultipleOf (20 + extra.length) 16) := by
    rw [hg16, drop_append_len
      (show ((HEADER_MAGIC ++ toBytesBE 4 1) ++ toBytesBE 8 n).length = 16 by
        simp [HEADER_MAGIC, toBytesBE_length])]
    exact take_append_len (toBytesBE_length 4 _)
  have hext : ((headerToBytes ⟨1, n, hl0, extra⟩).drop 20).take
      (nextMultipleOf (20 + extra.length) 16 - 20) =
      extra ++ List.replicate (nextMultipleOf (20 + extra.length) 16
        - (20 + extra.length)) 0 := by
    rw [hg20, drop_append_len
      (show (((HEADER_MAGIC ++ toBytesBE 4 1) ++ toBytesBE 8 n)
          ++ toBytesBE 4 (nextMultipleOf (20 + extra.length) 16)).length = 20 by
        simp [HEADER_MAGIC, toBytesBE_length])]
    apply List.take_of_length_le
    simp only [List.length_append, List.length_replicate]
    omega
  have hvo : Header.versionOnly (headerToBytes ⟨1, n, hl0, extra⟩) = .ok 1 := by
    unfold Header.versionOnly
    rw [if_neg (by omega), if_neg (by simp [ht4]), hver, fromBytesBE_toBytesBE]
    norm_num
  constructor
  · unfold Header.tryFrom
    rw [if_neg (by omega), hvo]
    dsimp only
    rw [if_neg (by simp), hno, fromBytesBE_toBytesBE, hhl, fromBytesBE_toBytesBE,
      show (256 : Nat) ^ 8 = 2 ^ 64 by norm_num,
      show (256 : Nat) ^ 4 = 2 ^ 32 by norm_num,
      Nat.mod_eq_of_lt hn, Nat.mod_eq_of_lt hfit]
    rw [if_neg (by omega), if_neg (by simp [nextMultipleOf_mod]),
      if_neg (by omega), hext]
  · intro hmod
    rw [nextMultipleOf_self hmod]
    simp

/-- C3 counterexample: encoding a version-1 header with empty
`extra_data` and decoding it back yields `extra_data` of 12 zero bytes,
not the original empty sequence — decode cannot tell padding from data. -/
theorem c3_counterexample :
    Header.tryFrom (headerToBytes ⟨1, 1, 0, []⟩) =
      .ok ⟨1, 1, 32, List.replicate 12 0⟩ ∧
    List.replicate 12 (0 : Nat) ≠ ([] : List Nat) :=
  ⟨by decide, by decide⟩

/-- Witness for the amended C3 at a 12-byte `extra_data`, where the
padding is empty and the round-trip is exact. -/
theorem c3_witness :
    Header.tryFrom (headerToBytes ⟨1, 5, 0, List.replicate 12 9⟩) =
      .ok ⟨1, 5, 32, List.replicate 12 9⟩ := by
  have h := c3_header_roundtrip_padded 5 0 (List.replicate 12 9) (by decide) (by decide)
  have h2 := h.2 (by decide)
  rw [h.1, h2]
  decide

theorem rawObjectToBytes_some (o : RawObject) (hc : o.compression = 0)
    (hs : ∀ e ∈ o.data, e.length = o.entry_size) :
    rawObjectToBytes o = some (toBytesBE 2 o.format ++ toBytesBE 2 o.compression
      ++ toBytesBE 2 o.entry_type ++ toBytesBE 2 o.entry_size
      ++ toBytesBE 8 (16 + o.data.length * o.entry_size) ++ o.data.flatten
      ++ List.replicate (nextMultipleOf (16 + o.data.length * o.entry_size) 16
          - (16 + o.data.length * o.entry_size)) 0) := by
  unfold rawObjectToBytes
  rw [if_neg (by omega), if_pos (by
    rw [List.all_eq_true]
    intro e he
    simp [hs e he])]

/-- C4: the raw-object encoder (compression none, every entry exactly
`entry_size` bytes) writes the *unpadded* length `16 + n * entry_size`
into the length field — not the padded footprint — and zero-pads the
output to the next multiple of 16.  (`hfit` is the `u64` range of the
length field.) -/
theorem c4_raw_object_length_field (o : RawObject) (hc : o.compression = 0)
    (hs : ∀ e ∈ o.data, e.length = o.entry_size)
    (hfit : 16 + o.data.length * o.entry_size < 2 ^ 64) :
    ∃ enc, rawObjectToBytes o = some enc ∧
      fromBytesBE ((enc.drop 8).take 8) = 16 + o.data.length * o.entry_size ∧
      enc.length = nextMultipleOf (16 + o.data.length * o.entry_size) 16 ∧
      enc.drop (16 + o.data.length * o.entry_size) =
        List.replicate (nextMultipleOf (16 + o.data.length * o.entry_size) 16
          - (16 + o.data.length * o.entry_size)) 0 := by
  have henc := rawObjectToBytes_some o hc hs
  have hfl : o.data.flatten.length = o.data.length * o.entry_size :=
    flatten_length_all hs
  have hle : 16 + o.data.length * o.entry_size ≤
      nextMultipleOf (16 + o.data.length * o.entry_size) 16 := nextMultipleOf_le _
  refine ⟨_, henc, ?_, ?_, ?_⟩
  · have hg : toBytesBE 2 o.format ++ toBytesBE 2 o.compression
        ++ toBytesBE 2 o.entry_type ++ toBytesBE 2 o.entry_size
        ++ toBytesBE 8 (16 + o.data.length * o.entry_size) ++ o.data.flatten
        ++ List.replicate (nextMultipleOf (16 + o.data.length * o.entry_size) 16
            - (16 + o.data.length * o.entry_size)) 0 =
        (toBytesBE 2 o.format ++ toBytesBE 2 o.compression
          ++ toBytesBE 2 o.entry_type ++ toBytesBE 2 o.entry_size)
        ++ (toBytesBE 8 (16 + o.data.length * o.entry_size) ++ (o.data.flatten
          ++ List.replicate (nextMultipleOf (16 + o.data.length * o.entry_size) 16
            - (16 + o.data.length * o.entry_size)) 0)) := by
      simp [List.append_assoc]
    rw [hg, drop_append_len (show (toBytesBE 2 o.format ++ toBytesBE 2 o.compression
        ++ toBytesBE 2 o.entry_type ++ toBytesBE 2 o.entry_size).length = 8 by
      simp [toBytesBE_length]),
      take_append_len (toBytesBE_length 8 _), fromBytesBE_toBytesBE,
      show (256 : Nat) ^ 8 = 2 ^ 64 by norm_num]
    exact Nat.mod_eq_of_lt hfit
  · simp only [List.length_append, toBytesBE_length, List.length_replicate, hfl]
    omega
  · have hg : toBytesBE 2 o.format ++ toBytesBE 2 o.compression
        ++ toBytesBE 2 o.entry_type ++ toBytesBE 2 o.entry_size
        ++ toBytesBE 8 (16 + o.data.length * o.entry_size) ++ o.data.flatten
        ++ List.replicate (nextMultipleOf (16 + o.data.length * o.entry_size) 16
            - (16 + o.data.length * o.entry_size)) 0 =
        (toBytesBE 2 o.format ++ toBytesBE 2 o.compression
          ++ toBytesBE 2 o.entry_type ++ toBytesBE 2 o.entry_size
          ++ toBytesBE 8 (16 + o.data.length * o.entry_size) ++ o.data.flatten)
        ++ List.replicate (nextMultipleOf (16 + o.data.length * o.entry_size) 16
            - (16 + o.data.length * o.entry_size)) 0 := by
      simp [List.append_assoc]
    rw [hg, drop_append_len (show (toBytesBE 2 o.format ++ toBytesBE 2 o.compression
        ++ toBytesBE 2 o.entry_type ++ toBytesBE 2 o.entry_size
        ++ toBytesBE 8 (16 + o.data.length * o.entry_size) ++ o.data.flatten).length =
        16 + o.data.length * o.entry_size by
      simp only [List.length_append, toBytesBE_length, hfl]
      try omega)]

/-- The concrete raw object of C4's example: `entry_size = 6`, two 6-byte
entries. -/
def c4Obj : RawObject := ⟨1, 0, 1, 6, 0, [[0, 0, 0, 0, 0, 1], [0, 0, 0, 0, 0, 2]]⟩

/-- Witness for C4: on `c4Obj` the length field stores 28 while the
encoded output is 32 bytes, the last 4 being zero padding. -/
theorem c4_witness :
    ∃ enc, rawObjectToBytes c4Obj = some enc ∧
      fromBytesBE ((enc.drop 8).take 8) = 28 ∧
      enc.length = 32 ∧
      enc.drop 28 = List.replicate 4 0 := by
  obtain ⟨enc, h1, h2, h3, h4⟩ :=
    c4_raw_object_length_field c4Obj rfl (by decide) (by decide)
  refine ⟨enc, h1, ?_, ?_, ?_⟩
  · simpa using h2
  · simpa using h3
  · simpa using h4

theorem lookup_filter_ne {α : Type} (l : List (Nat × α)) (k id : Nat) (h : id ≠ k) :
    List.lookup id (l.filter (fun p => p.1 != k)) = List.lookup id l := by
  induction l with
  | nil => rfl
  | cons a t ih =>
    obtain ⟨a1, a2⟩ := a
    by_cases hak : a1 = k
    · have hf : ((a1, a2) :: t).filter (fun p => p.1 != k) =
          t.filter (fun p => p.1 != k) := by
        simp [List.filter_cons, hak]
      have hne : (id == a1) = false := by
        subst hak
        simp [h]
      rw [hf, ih, List.lookup, hne]
    · have hf : ((a1, a2) :: t).filter (fun p => p.1 != k) =
          (a1, a2) :: t.filter (fun p => p.1 != k) := by
        simp [List.filter_cons, hak]
      rw [hf]
      by_cases haid : id = a1
      · simp [List.lookup, haid]
      · have hne : (id == a1) = false := by simp [haid]
        rw [List.lookup, hne, List.lookup, hne, ih]

theorem lookup_hmInsert_self {α : Type} (m : List (Nat × α)) (k : Nat) (v : α) :
    List.lookup k (hmInsert m k v) = some v := by
  simp [hmInsert, List.lookup]

theorem lookup_hmInsert_ne {α : Type} (m : List (Nat × α)) (k id : Nat) (v : α)
    (h : id ≠ k) : List.lookup id (hmInsert m k v) = List.lookup id m := by
  unfold hmInsert
  have hne : (id == k) = false := by simp [h]
  rw [List.lookup, hne, lookup_filter_ne m k id h]

theorem parseV1Objects_ok (data : List Nat) :
    ∀ (ms : List ObjectMapping) (acc : List (Nat × RawObject)),
    (∀ m ∈ ms, m.offset < data.length) →
    (∀ m ∈ ms, (RawObject.tryFrom (data.drop m.offset)).isOk = true) →
    ∃ objs, RawDatabaseFile.parseV1Objects data ms acc = .ok objs ∧
      ∀ id, List.lookup id objs =
        match (ms.filter (fun x => x.id == id)).getLast? with
        | some m => (RawObject.tryFrom (data.drop m.offset)).toOption
        | none => List.lookup id acc := by
  intro ms
  induction ms with
  | nil =>
    intro acc _ _
    exact ⟨acc, rfl, fun id => by simp⟩
  | cons m rest ih =>
    intro acc hoff hok
    have hm_ok := hok m (List.mem_cons_self m rest)
    obtain ⟨o, ho⟩ : ∃ o, RawObject.tryFrom (data.drop m.offset) = .ok o := by
      cases hr : RawObject.tryFrom (data.drop m.offset) with
      | ok o => exact ⟨o, rfl⟩
      | panic => rw [hr] at hm_ok; simp [DResult.isOk] at hm_ok
      | err e => rw [hr] at hm_ok; simp [DResult.isOk] at hm_ok
    obtain ⟨objs, hobjs, hlook⟩ := ih (hmInsert acc m.id o)
      (fun x hx => hoff x (List.mem_cons_of_mem m hx))
      (fun x hx => hok x (List.mem_cons_of_mem m hx))
    refine ⟨objs, ?_, ?_⟩
    · unfold RawDatabaseFile.parseV1Objects
      rw [if_neg (by
        have := hoff m (List.mem_cons_self m rest)
        omega), ho]
      exact hobjs
    · intro id
      rw [hlook id]
      by_cases hid : m.id = id
      · have hcons : ((m :: rest).filter (fun x => x.id == id)) =
            m :: rest.filter (fun x => x.id == id) := by
          simp [List.filter_cons, hid]
        rw [hcons]
        cases hrf : rest.filter (fun x => x.id == id) with
        | nil =>
          simp only [hrf, List.getLast?_singleton, List.getLast?_nil, ho]
          subst hid
          exact lookup_hmInsert_self acc m.id o
        | cons y ys =>
          rw [List.getLast?_cons_cons]
          obtain ⟨z, hz⟩ := Option.isSome_iff_exists.mp
            (List.getLast?_isSome.mpr (List.cons_ne_nil y ys))
          rw [hz]
      · have hfil : ((m :: rest).filter (fun x => x.id == id)) =
            rest.filter (fun x => x.id == id) := by
          simp [List.filter_cons, hid]
        rw [hfil]
        cases hrf : (rest.filter (fun x => x.id == id)).getLast? with
        | some m2 => rfl
        | none =>
          exact lookup_hmInsert_ne acc m.id id o (fun hc => hid hc.symm)

/-- C8: whenever the header and object map decode successfully and every
mapping's offset is in bounds and decodable, the raw assembler succeeds,
and for any id its id-to-RawObject mapping holds the object decoded from
the mapping occurring *last* in map sequence order (later duplicates
overwrite earlier ones); likewise the eager facade's `add_object` replaces
any existing object under the id rather than merging. -/
theorem c8_last_write_wins :
    (∀ (value : List Nat) (hdr : Header) (om : ObjectMap),
      Header.tryFrom value = .ok hdr →
      ObjectMap.tryFrom (value.drop hdr.header_len) hdr.number_of_objects = .ok om →
      (∀ m ∈ om.mappings, m.offset < value.length) →
      (∀ m ∈ om.mappings, (RawObject.tryFrom (value.drop m.offset)).isOk = true) →
      ∃ raw, RawDatabaseFile.parseV1 value = .ok raw ∧
        raw.header = hdr ∧ raw.object_map = om ∧
        ∀ id m o, (om.mappings.filter (fun x => x.id == id)).getLast? = some m →
          RawObject.tryFrom (value.drop m.offset) = .ok o →
          List.lookup id raw.objects = some o) ∧
    (∀ (db : Database) (id : Nat) (o : Object),
      (db.addObject id o).getObject id = some o ∧
      ∀ id2, id2 ≠ id → (db.addObject id o).getObject id2 = db.getObject id2) := by
  constructor
  · intro value hdr om hh hm hoff hok
    obtain ⟨objs, hobjs, hlook⟩ := parseV1Objects_ok value om.mappings [] hoff hok
    refine ⟨⟨hdr, om, objs⟩, ?_, rfl, rfl, ?_⟩
    · unfold RawDatabaseFile.parseV1 RawDatabaseFile.parseV1Headers
      simp only [hh, hm, hobjs]
    · intro id m o hlast ho
      rw [hlook id]
      simp only [hlast, ho]
      rfl
  · intro db id o
    exact ⟨lookup_hmInsert_self _ _ _, fun id2 h2 => lookup_hmInsert_ne _ _ _ _ h2⟩

/-- Concrete database file with a duplicated id: header for 2 objects, two
map records both with id 1 (offsets 80 and 112), and two distinct raw
objects at those offsets. -/
def c8Bytes : List Nat :=
  HEADER_MAGIC ++ toBytesBE 4 1 ++ toBytesBE 8 2 ++ toBytesBE 4 48 ++ List.replicate 28 0
    ++ toBytesBE 8 1 ++ toBytesBE 8 80 ++ toBytesBE 8 1 ++ toBytesBE 8 112
    ++ toBytesBE 2 1 ++ toBytesBE 2 0 ++ toBytesBE 2 1 ++ toBytesBE 2 16
    ++ toBytesBE 8 32 ++ List.replicate 16 170
    ++ toBytesBE 2 1 ++ toBytesBE 2 0 ++ toBytesBE 2 1 ++ toBytesBE 2 16
    ++ toBytesBE 8 32 ++ List.replicate 16 187

/-- The raw object stored at offset 112 of `c8Bytes` — the one from the
*second* (last) mapping for id 1. -/
def c8Obj2 : RawObject := ⟨1, 0, 1, 16, 32, [List.replicate 16 187]⟩

set_option maxRecDepth 20000 in
/-- Witness for C8: parsing `c8Bytes` succeeds and id 1 maps to the object
of the last mapping. -/
theorem c8_witness :
    ∃ raw, RawDatabaseFile.parseV1 c8Bytes = .ok raw ∧
      List.lookup 1 raw.objects = some c8Obj2 := by
  obtain ⟨raw, hraw, _, _, hlast⟩ := c8_last_write_wins.1 c8Bytes
    ⟨1, 2, 48, List.replicate 28 0⟩ ⟨[⟨1, 80⟩, ⟨1, 112⟩]⟩
    (by decide) (by rfl) (by decide) (by decide)
  exact ⟨raw, hraw, hlast 1 ⟨1, 112⟩ c8Obj2 (by decide) (by rfl)⟩

theorem headerToBytes_length (h : Header) :
    (headerToBytes h).length = nextMultipleOf (20 + h.extra_data.length) 16 := by
  rw [headerToBytes_eq]
  simp only [List.length_append, toBytesBE_length, List.length_replicate]
  have hle := nextMultipleOf_le (20 + h.extra_data.length)
  have hm : HEADER_MAGIC.length = 4 := rfl
  omega

theorem rawObjectToBytes_length {o : RawObject} {enc : List Nat}
    (h : rawObjectToBytes o = some enc) :
    enc.length = nextMultipleOf (16 + o.data.length * o.entry_size) 16 := by
  unfold rawObjectToBytes at h
  dsimp only at h
  split_ifs at h with h1 h2
  rw [Option.some.injEq] at h
  have hs : ∀ e ∈ o.data, e.length = o.entry_size := by
    intro e he
    have := List.all_eq_true.mp h2 e he
    simpa using this
  have hfl := flatten_length_all hs
  have hle := nextMultipleOf_le (16 + o.data.length * o.entry_size)
  rw [← h]
  simp only [List.length_append, toBytesBE_length, List.length_replicate, hfl]
  omega

theorem serializeObjects_ok (l : List (Nat × Object)) :
    ∀ (acc : List Nat) (maps : List ObjectMapping) (data : List Nat),
    Database.serializeObjects l acc = .ok (maps, data) →
    acc.length % 16 = 0 →
    maps.length = l.length ∧ ∀ m ∈ maps, m.offset % 16 = 0 := by
  induction l with
  | nil =>
    intro acc maps data h _
    unfold Database.serializeObjects at h
    rw [DResult.ok.injEq, Prod.mk.injEq] at h
    obtain ⟨hm, _⟩ := h
    subst hm
    exact ⟨rfl, by simp⟩
  | cons p rest ih =>
    intro acc maps data h h16
    obtain ⟨id, obj⟩ := p
    unfold Database.serializeObjects at h
    dsimp only at h
    split_ifs at h with hland
    cases henc : rawObjectToBytes ⟨obj.format, obj.compression_type.getValue,
        obj.entry_type, obj.entry_size, 0, obj.data⟩ with
    | none => rw [henc] at h; exact absurd h (by simp)
    | some out_vec =>
      rw [henc] at h
      dsimp only at h
      cases hrec : Database.serializeObjects rest (acc ++ out_vec) with
      | panic => rw [hrec] at h; exact absurd h (by simp)
      | err e => rw [hrec] at h; exact absurd h (by simp)
      | ok pr =>
        obtain ⟨maps2, data2⟩ := pr
        rw [hrec] at h
        dsimp only at h
        rw [DResult.ok.injEq, Prod.mk.injEq] at h
        obtain ⟨hm, hd⟩ := h
        have hout : out_vec.length % 16 = 0 := by
          rw [rawObjectToBytes_length henc]
          exact nextMultipleOf_mod _
        obtain ⟨hlen2, hoff2⟩ := ih (acc ++ out_vec) maps2 data2 hrec (by
          simp only [List.length_append]
          omega)
        constructor
        · rw [← hm]
          simp [hlen2]
        · rw [← hm]
          intro m hmem
          rcases List.mem_cons.mp hmem with rfl | hmem2
          · exact h16
          · exact hoff2 m hmem2

theorem flatten_blocks_drop (bs : List (List Nat)) (tail : List Nat)
    (hb : ∀ b ∈ bs, b.length = 16) :
    ∀ i, i ≤ bs.length →
    (bs.flatten ++ tail).drop (16 * i) = (bs.drop i).flatten ++ tail := by
  induction bs with
  | nil =>
    intro i hi
    simp only [List.length_nil, Nat.le_zero] at hi
    subst hi
    simp
  | cons b rest ih =>
    intro i hi
    cases i with
    | zero => simp
    | succ j =>
      have hb16 : b.length = 16 := hb b (List.mem_cons_self b rest)
      rw [List.flatten_cons, List.append_assoc,
        show 16 * (j + 1) = 16 + 16 * j by ring, ← List.drop_drop,
        drop_append_len hb16, List.drop_succ_cons]
      exact ih (fun x hx => hb x (List.mem_cons_of_mem b hx)) j (by
        simpa using hi)

theorem objectMapToBytes_read_offset (ms : List ObjectMapping) (tail : List Nat)
    (i : Nat) (hi : i < ms.length) :
    ((objectMapToBytes ⟨ms⟩ ++ tail).drop (16 * i + 8)).take 8 =
      toBytesBE 8 (ms.get ⟨i, hi⟩).offset := by
  have hblocks : ∀ b ∈ ms.map
      (fun m => toBytesBE 8 m.id ++ toBytesBE 8 m.offset), b.length = 16 := by
    intro b hb
    simp only [List.mem_map] at hb
    obtain ⟨m, _, rfl⟩ := hb
    simp [toBytesBE_length]
  have hi2 : i < (ms.map
      (fun m => toBytesBE 8 m.id ++ toBytesBE 8 m.offset)).length := by
    simpa using hi
  unfold objectMapToBytes
  rw [← List.drop_drop,
    flatten_blocks_drop _ tail hblocks i (by omega),
    List.drop_eq_getElem_cons hi2, List.flatten_cons, List.getElem_map,
    List.append_assoc, List.append_assoc,
    drop_append_len (toBytesBE_length 8 _),
    take_append_len (toBytesBE_length 8 _)]
  simp [List.get_eq_getElem]

/-- C7: whenever `Database::as_bytes` returns a byte buffer, every offset
recorded in the serialized object map (the 8 offset bytes of record `i`
sit at byte position `48 + 16 * i + 8`) is a multiple of 16, and every
encoded raw object's padded footprint is itself a multiple of 16 (as are
the 48-byte header and the 16-byte map records). -/
theorem c7_serialized_offsets_aligned (db : Database) (ts : Nat) (bytes : List Nat)
    (h : db.asBytes ts = .ok bytes) :
    (∀ i, i < db.objects.length →
      fromBytesBE ((bytes.drop (48 + 16 * i + 8)).take 8) % 16 = 0) ∧
    (∀ (r : RawObject) (enc : List Nat), rawObjectToBytes r = some enc →
      enc.length % 16 = 0) := by
  refine ⟨?_, fun r enc he => by
    rw [rawObjectToBytes_length he]; exact nextMultipleOf_mod _⟩
  intro i hi
  unfold Database.asBytes at h
  dsimp only at h
  cases hser : Database.serializeObjects db.objects [] with
  | panic => rw [hser] at h; exact absurd h (by simp)
  | err e => rw [hser] at h; exact absurd h (by simp)
  | ok pr =>
    obtain ⟨maps, objData⟩ := pr
    rw [hser] at h
    dsimp only at h
    rw [DResult.ok.injEq] at h
    obtain ⟨hlen_maps, hoff_maps⟩ :=
      serializeObjects_ok db.objects [] maps objData hser (by simp)
    have hHB : (headerToBytes (Header.new db.objects.length
        (toBytesBE 8 ts ++ toBytesBE 8 db.database_version))).length = 48 := by
      rw [headerToBytes_length]
      have hE : (toBytesBE 8 ts ++ toBytesBE 8 db.database_version).length = 16 := by
        simp [toBytesBE_length]
      simp only [Header.new] at hE ⊢
      rw [hE]
      decide
    have hipatch : i < (maps.map (fun m => ObjectMapping.mk m.id
        (m.offset + ((headerToBytes (Header.new db.objects.length
          (toBytesBE 8 ts ++ toBytesBE 8 db.database_version))).length
          + 16 * maps.length)))).length := by
      simpa [hlen_maps] using hi
    rw [← h, List.append_assoc,
      show 48 + 16 * i + 8 = 48 + (16 * i + 8) by omega,
      ← List.drop_drop, drop_append_len hHB,
      objectMapToBytes_read_offset _ objData i hipatch,
      fromBytesBE_toBytesBE, show (256 : Nat) ^ 8 = 2 ^ 64 by norm_num,
      Nat.mod_mod_of_dvd _ (show (16 : Nat) ∣ 2 ^ 64 from ⟨2 ^ 60, by norm_num⟩)]
    have hmem := List.get_mem maps i (by omega)
    have hoff := hoff_maps _ hmem
    simp only [List.get_eq_getElem] at hoff
    simp only [List.get_eq_getElem, List.getElem_map]
    omega

/-- Single-object database used to witness C7. -/
def c7Db : Database :=
  ⟨[(5, ⟨1, .noCompression, 1, 16, [List.replicate 16 7]⟩)], 0, 1⟩

/-- The bytes `Database::as_bytes` produces for `c7Db` at timestamp 0. -/
def c7Bytes : List Nat := (Database.asBytes c7Db 0).toOption.getD []

set_option maxRecDepth 20000 in
/-- Witness for C7: the single map record of `c7Bytes` (offset bytes at
position 56) stores a 16-aligned offset. -/
theorem c7_witness : fromBytesBE ((c7Bytes.drop 56).take 8) % 16 = 0 := by
  have h := (c7_serialized_offsets_aligned c7Db 0 c7Bytes (by rfl)).1 0 (by decide)
  simpa using h
